import Mathlib

/-!
Verification development for the gemini-live-conversational-api repository.

Server side: the WebSocket relay (`server.js`, reproduced in `DEPLOYMENT.md`)
keeps a `sessions` map from a connection identifier (`Date.now().toString()`)
to a session record, dispatches on the `mode` query parameter, and forwards
messages between the browser socket and the vendor SDK session.

Client side: the Lit component in `index.tsx` keeps a `conversationHistory`
list, in-progress transcription buffers, and a set of scheduled audio sources,
updated by WebSocket message handlers and UI actions.

JavaScript strings are modelled by `String`, `String.prototype.trim` by
`jsTrim`, JS `Map` by an insertion-ordered association list (`mapSet`
overwrites in place like `Map.set`), and `Date.now()` by a `Nat` timestamp
supplied with each connect event.
-/

/-- Model of JS `Map.set`: overwrite the entry in place if the key is present,
otherwise append the new entry at the end (JS maps preserve insertion order). -/
def mapSet {α : Type} (m : List (String × α)) (k : String) (v : α) :
    List (String × α) :=
  match m with
  | [] => [(k, v)]
  | (k0, v0) :: rest => if k0 = k then (k, v) :: rest else (k0, v0) :: mapSet rest k v

/-- Model of JS `Map.delete`: remove the entry with the given key. -/
def mapDelete {α : Type} (m : List (String × α)) (k : String) :
    List (String × α) :=
  match m with
  | [] => []
  | (k0, v0) :: rest => if k0 = k then rest else (k0, v0) :: mapDelete rest k

/-- Model of JS `Map.get`. -/
def mapGet {α : Type} (m : List (String × α)) (k : String) : Option α :=
  match m with
  | [] => none
  | (k0, v0) :: rest => if k0 = k then some v0 else mapGet rest k

/-- The keys of the map, in insertion order. -/
def mapKeys {α : Type} (m : List (String × α)) : List String := m.map Prod.fst

/-- The four session kinds of the relay: the `type` stored in a session record
(`'playground'`, `'text'`, `'stt-gemini'`, `'voice'`). -/
inductive SessionType
  | playground
  | text
  | sttGemini
  | voice
deriving DecidableEq

/-- JS `x || d` for a nullable string `x`: both `null` (absent query
parameter) and the empty string are falsy. -/
def jsStringOr (v : Option String) (d : String) : String :=
  match v with
  | none => d
  | some s => if s = "" then d else s

/-- The relay's mode dispatch over the already-defaulted `mode` string:
`if (mode === 'playground') ... if (mode === 'text') ... if (mode === 'stt')
...` with the remaining code path creating a voice Live session. -/
def dispatchMode (mode : String) : SessionType :=
  if mode = "playground" then SessionType.playground
  else if mode = "text" then SessionType.text
  else if mode = "stt" then SessionType.sttGemini
  else SessionType.voice

/-- A session record stored in the `sessions` map: the session kind together
with whether the record has a `session` property (the Live API handle).
The playground record is `{ type: 'playground' }` and the text record is
`{ type: 'text', chatSession }`, neither of which has a `session` property;
the stt and voice records are `{ type, session }`. -/
structure SessionRecord where
  kind : SessionType
  hasSession : Bool
deriving DecidableEq

/-- The record inserted by `sessions.set(sessionId, ...)` in each branch. -/
def mkRecord : SessionType → SessionRecord
  | SessionType.playground => { kind := SessionType.playground, hasSession := false }
  | SessionType.text => { kind := SessionType.text, hasSession := false }
  | SessionType.sttGemini => { kind := SessionType.sttGemini, hasSession := true }
  | SessionType.voice => { kind := SessionType.voice, hasSession := true }

/-- The connection identifier: `const sessionId = Date.now().toString()`. -/
def sessionKey (t : Nat) : String := Nat.repr t

/-- The `clientWs.on('close')` handler of each mode, acting on the sessions
map. Playground, text and stt delete the record unconditionally; the voice
handler deletes it only inside `if (sessionData && sessionData.session)`. -/
def closeHandler (kind : SessionType) (k : String)
    (m : List (String × SessionRecord)) : List (String × SessionRecord) :=
  match kind with
  | SessionType.playground => mapDelete m k
  | SessionType.text => mapDelete m k
  | SessionType.sttGemini => mapDelete m k
  | SessionType.voice =>
    match mapGet m k with
    | some r => if r.hasSession then mapDelete m k else m
    | none => m

/-- One open browser connection held by the relay: a socket identity
(`connId`, a fresh serial number identifying the socket object), the
`Date.now()` timestamp observed at connect, and the selected mode. -/
structure OpenConn where
  connId : Nat
  time : Nat
  kind : SessionType
deriving DecidableEq

/-- The relay's mutable state: the set of open client sockets and the
in-memory `sessions` map. -/
structure RelayState where
  nextConn : Nat
  conns : List OpenConn
  sessions : List (String × SessionRecord)
deriving DecidableEq

/-- External events driving the relay: a client connects (with the observed
`Date.now()` value and the raw `mode` query parameter), or an open client
socket closes. -/
inductive RelayEvent
  | connect (time : Nat) (modeParam : Option String)
  | disconnect (connId : Nat)
deriving DecidableEq

/-- One step of the relay. On connect, the `wss.on('connection')` handler
computes the mode, the session id, and performs the single `sessions.set`
of the selected branch. On disconnect, the close handler of the closing
socket's branch runs with its captured `sessionId`. -/
def relayStep (s : RelayState) (e : RelayEvent) : RelayState :=
  match e with
  | RelayEvent.connect t q =>
    let kind := dispatchMode (jsStringOr q "voice")
    { nextConn := s.nextConn + 1
      conns := s.conns ++ [{ connId := s.nextConn, time := t, kind := kind }]
      sessions := mapSet s.sessions (sessionKey t) (mkRecord kind) }
  | RelayEvent.disconnect i =>
    match s.conns.find? (fun c => c.connId == i) with
    | some c =>
      { s with
        conns := s.conns.eraseP (fun c => c.connId == i)
        sessions := closeHandler c.kind (sessionKey c.time) s.sessions }
    | none => s

/-- Run the relay over a sequence of events. -/
def relayRun (s : RelayState) (es : List RelayEvent) : RelayState :=
  es.foldl relayStep s

/-- The relay's initial state: `const sessions = new Map()`, no connections. -/
def relayInit : RelayState := { nextConn := 0, conns := [], sessions := [] }

/-- The `Date.now()` values of the connect events of a trace, in order. -/
def connectTimes : List RelayEvent → List Nat
  | [] => []
  | RelayEvent.connect t _ :: es => t :: connectTimes es
  | RelayEvent.disconnect _ :: es => connectTimes es

/-- A vendor Live API server message as consumed by the frontend
(`message.serverContent` fields read by `handleGeminiMessage`). -/
structure GeminiMsg where
  audioData : Option String
  modelTurnText : Option String
  inputTranscriptionText : Option String
  inputTranscriptionFinished : Bool
  outputTranscriptionText : Option String
  turnComplete : Bool
  interrupted : Bool
deriving DecidableEq

/-- The JSON result of parsing the accumulated playground stream:
either the parsed value or the raw accumulated text. -/
inductive PgResponse
  | parsedJson (v : String)
  | rawText (s : String)
deriving DecidableEq

/-- A JSON message sent from the relay to the browser, by its `type` tag. -/
inductive ServerMsg
  | sessionOpen (mode : String)
  | sessionClose (reason : Option String)
  | errorMsg (message : String)
  | playgroundError (error : String)
  | playgroundChunk (text : String)
  | playgroundComplete (response : PgResponse)
  | textChunk (text : String)
  | textComplete
  | message (data : GeminiMsg)
  | transcription (text : String) (finished : Bool)
deriving DecidableEq

/-- The `type` field of the JSON object each `ServerMsg` is serialized to. -/
def ServerMsg.typeField : ServerMsg → String
  | ServerMsg.sessionOpen _ => "session_open"
  | ServerMsg.sessionClose _ => "session_close"
  | ServerMsg.errorMsg _ => "error"
  | ServerMsg.playgroundError _ => "playground_error"
  | ServerMsg.playgroundChunk _ => "playground_chunk"
  | ServerMsg.playgroundComplete _ => "playground_complete"
  | ServerMsg.textChunk _ => "text_chunk"
  | ServerMsg.textComplete => "text_complete"
  | ServerMsg.message _ => "message"
  | ServerMsg.transcription _ _ => "transcription"

/-- The error text carried by a message, if any: the `message` field of an
`error` message, or the `error` field of a `playground_error` message. -/
def ServerMsg.errorPayload : ServerMsg → Option String
  | ServerMsg.errorMsg m => some m
  | ServerMsg.playgroundError e => some e
  | _ => none

/-- An action the relay performs on the client socket. -/
inductive ClientAction
  | send (m : ServerMsg)
  | closeSocket
deriving DecidableEq

/-- The synchronous client-visible actions of the connection handler, as a
function of the selected mode and of whether session setup succeeded or threw.
On success, the playground and text branches send `session_open` inline (the
stt and voice branches send it later from the vendor `onopen` callback); on
any thrown error the final `catch` sends one `error` message with the error's
message and then closes the client socket. -/
def connectionSetupActions (kind : SessionType) (result : Except String Unit) :
    List ClientAction :=
  match result with
  | Except.ok _ =>
    match kind with
    | SessionType.playground => [ClientAction.send (ServerMsg.sessionOpen "playground")]
    | SessionType.text => [ClientAction.send (ServerMsg.sessionOpen "text")]
    | SessionType.sttGemini => []
    | SessionType.voice => []
  | Except.error e => [ClientAction.send (ServerMsg.errorMsg e), ClientAction.closeSocket]

/-- The text-mode `catch (streamError)` handler:
`clientWs.send(JSON.stringify({ type: 'error', message: streamError.message }))`. -/
def textStreamErrorSends (e : String) : List ServerMsg := [ServerMsg.errorMsg e]

/-- The playground-mode `catch (streamError)` handler:
`clientWs.send(JSON.stringify({ type: 'playground_error', error: streamError.message }))`. -/
def playgroundStreamErrorSends (e : String) : List ServerMsg :=
  [ServerMsg.playgroundError e]

/-- The stt branch's vendor `onerror` callback:
`clientWs.send(JSON.stringify({ type: 'error', message: error.message }))`. -/
def sttOnErrorSend (e : String) : ServerMsg := ServerMsg.errorMsg e

/-- The voice branch's vendor `onerror` callback:
`clientWs.send(JSON.stringify({ type: 'error', message: error.message }))`. -/
def voiceOnErrorSend (e : String) : ServerMsg := ServerMsg.errorMsg e

/-- The voice branch's vendor `onmessage` callback: every upstream message is
forwarded to the client as `{ type: 'message', data: message }`. -/
def voiceOnMessageSend (m : GeminiMsg) : ServerMsg := ServerMsg.message m

/-- Forwarding of a whole upstream message stream, in arrival order. -/
def voiceForward (ms : List GeminiMsg) : List ServerMsg :=
  ms.map voiceOnMessageSend

/-- A vendor SDK call issued by the relay on behalf of the client. -/
inductive UpstreamCall
  | sendRealtimeInput (data : String) (mimeType : String)
  | sendClientContent (role : String) (text : String)
deriving DecidableEq

/-- A parsed JSON message received from the browser on the voice socket. -/
structure ClientMsg where
  msgType : String
  data : String
  text : String
deriving DecidableEq

/-- The voice branch's `clientWs.on('message')` handler: an `audio` message
becomes `session.sendRealtimeInput({ media: { data, mimeType:
'audio/pcm;rate=16000' } })`, a `text` message becomes
`session.sendClientContent({ turns: [{ role: 'user', parts: [{ text }] }] })`,
anything else is ignored. -/
def voiceClientOnMessage (m : ClientMsg) : Option UpstreamCall :=
  if m.msgType = "audio" then
    some (UpstreamCall.sendRealtimeInput m.data "audio/pcm;rate=16000")
  else if m.msgType = "text" then
    some (UpstreamCall.sendClientContent "user" m.text)
  else none

/-- The final playground response value: `let finalResponse = fullText; if
(useStructuredOutput) { try { finalResponse = JSON.parse(fullText) } catch {}
}`. `JSON.parse` is modelled by the function argument; `none` models a parse
failure (a thrown exception, swallowed by the empty catch). -/
def playgroundFinalResponse (parseJson : String → Option String)
    (useStructuredOutput : Bool) (fullText : String) : PgResponse :=
  if useStructuredOutput then
    match parseJson fullText with
    | some v => PgResponse.parsedJson v
    | none => PgResponse.rawText fullText
  else PgResponse.rawText fullText

/-- The messages sent after the playground stream is exhausted: exactly one
`playground_complete` carrying the final response value. -/
def playgroundStreamFinishSends (parseJson : String → Option String)
    (useStructuredOutput : Bool) (fullText : String) : List ServerMsg :=
  [ServerMsg.playgroundComplete
    (playgroundFinalResponse parseJson useStructuredOutput fullText)]

/-- Left and right whitespace trimming on the character list. -/
def trimChars (l : List Char) : List Char :=
  ((l.dropWhile Char.isWhitespace).reverse.dropWhile Char.isWhitespace).reverse

/-- Model of JS `String.prototype.trim`. -/
def jsTrim (s : String) : String := (trimChars s.data).asString

/-- The role tag of a conversation entry. -/
inductive Role
  | user
  | ai
deriving DecidableEq

/-- One entry of the browser's `conversationHistory`. -/
structure ConversationEntry where
  role : Role
  text : String
deriving DecidableEq

/-- The `gdm-live-audio` component state relevant to the claims: the
transcript, the in-progress input/output buffers, the pending text input, the
connection flag, the set of scheduled audio sources (by a serial id, with the
next fresh id), and the playback scheduling clock `nextStartTime`. -/
structure ClientState where
  conversationHistory : List ConversationEntry
  currentUserInput : String
  currentAiOutput : String
  textInput : String
  isSessionConnected : Bool
  sources : List Nat
  nextSourceId : Nat
  nextStartTime : Nat
deriving DecidableEq

/-- The component's initial state. -/
def initClientState : ClientState :=
  { conversationHistory := []
    currentUserInput := ""
    currentAiOutput := ""
    textInput := ""
    isSessionConnected := false
    sources := []
    nextSourceId := 0
    nextStartTime := 0 }

/-- An observable audio effect of a handler: stopping a scheduled source. -/
inductive AudioEffect
  | stopSource (id : Nat)
deriving DecidableEq

/-- The audio playback block of `handleGeminiMessage`: clamp `nextStartTime`
to the current time, schedule a new buffer source of the decoded duration at
`nextStartTime`, advance `nextStartTime` by that duration, and add the source
to the set. -/
def audioBranch (now dur : Nat) (s : ClientState) : ClientState :=
  let start := max s.nextStartTime now
  { s with
    nextStartTime := start + dur
    sources := s.sources ++ [s.nextSourceId]
    nextSourceId := s.nextSourceId + 1 }

/-- The `inputTranscription.finished` block: if the trimmed accumulated user
input is nonempty, append it to the history as a `user` entry and clear the
buffer. -/
def inputFinishedBranch (s : ClientState) : ClientState :=
  if jsTrim s.currentUserInput = "" then s
  else
    { s with
      conversationHistory := s.conversationHistory ++
        [{ role := Role.user, text := jsTrim s.currentUserInput }]
      currentUserInput := "" }

/-- The AI-output flush block, shared verbatim by the `turnComplete` branch of
`handleGeminiMessage` and by the `text_complete` handler: if the trimmed
accumulated AI output is nonempty, append it to the history as an `ai` entry
and clear the buffer. -/
def aiFlushBranch (s : ClientState) : ClientState :=
  if jsTrim s.currentAiOutput = "" then s
  else
    { s with
      conversationHistory := s.conversationHistory ++
        [{ role := Role.ai, text := jsTrim s.currentAiOutput }]
      currentAiOutput := "" }

/-- The `serverContent.interrupted` block: stop every scheduled source and
empty the set, reset `nextStartTime` to 0, and clear the in-progress AI
output buffer. -/
def interruptedBranch (s : ClientState) : List AudioEffect × ClientState :=
  (s.sources.map AudioEffect.stopSource,
   { s with sources := [], nextStartTime := 0, currentAiOutput := "" })

/-- Audio block of `handleGeminiMessage`, guarded by `audio?.data`. -/
def geminiAudioStep (now dur : Nat) (m : GeminiMsg) (s : ClientState) : ClientState :=
  match m.audioData with
  | some _ => audioBranch now dur s
  | none => s

/-- Text-response block, guarded by `serverContent?.modelTurn?.parts?.[0]?.text`. -/
def geminiModelTextStep (m : GeminiMsg) (s : ClientState) : ClientState :=
  match m.modelTurnText with
  | some t => { s with currentAiOutput := s.currentAiOutput ++ t }
  | none => s

/-- Input-transcription accumulation block. -/
def geminiInputTransStep (m : GeminiMsg) (s : ClientState) : ClientState :=
  match m.inputTranscriptionText with
  | some t => { s with currentUserInput := s.currentUserInput ++ t }
  | none => s

/-- Input-transcription `finished` block. -/
def geminiInputFinishedStep (m : GeminiMsg) (s : ClientState) : ClientState :=
  if m.inputTranscriptionFinished then inputFinishedBranch s else s

/-- Output-transcription accumulation block. -/
def geminiOutputTransStep (m : GeminiMsg) (s : ClientState) : ClientState :=
  match m.outputTranscriptionText with
  | some t => { s with currentAiOutput := s.currentAiOutput ++ t }
  | none => s

/-- `turnComplete` block. -/
def geminiTurnCompleteStep (m : GeminiMsg) (s : ClientState) : ClientState :=
  if m.turnComplete then aiFlushBranch s else s

/-- `interrupted` block, the last block of the handler. -/
def geminiInterruptedStep (m : GeminiMsg) (s : ClientState) :
    List AudioEffect × ClientState :=
  if m.interrupted then interruptedBranch s else ([], s)

/-- `handleGeminiMessage`: the guarded blocks run in source order on the
state, and the decoded audio timing (`outputAudioContext.currentTime` and
`audioBuffer.duration`) enters as the ambient arguments `now` and `dur`. -/
def handleGeminiMessage (now dur : Nat) (m : GeminiMsg) (s : ClientState) :
    List AudioEffect × ClientState :=
  geminiInterruptedStep m
    (geminiTurnCompleteStep m
      (geminiOutputTransStep m
        (geminiInputFinishedStep m
          (geminiInputTransStep m
            (geminiModelTextStep m
              (geminiAudioStep now dur m s))))))

/-- An event handled by the `gdm-live-audio` component: an incoming proxy
message (with the ambient audio clock and decoded chunk duration), the Send
button or Enter key (`sendText`), the reset button, a confirmed mode switch,
or the `ended` event of a scheduled audio source. -/
inductive ClientEvent
  | wsMessage (m : ServerMsg) (now dur : Nat)
  | sendTextClick
  | resetClick
  | modeSwitchConfirm
  | audioSourceEnded (id : Nat)
deriving DecidableEq

/-- One step of the component: the `ws.onmessage` dispatch, `sendText`
(guarded by a nonempty trimmed input and an open session), `reset` (clears
the transcript and both buffers), `confirmModeSwitch` (clears only the
buffers, preserving the transcript), and source `ended` cleanup. -/
def clientStep (s : ClientState) (e : ClientEvent) :
    List AudioEffect × ClientState :=
  match e with
  | ClientEvent.wsMessage m now dur =>
    match m with
    | ServerMsg.sessionOpen _ => ([], { s with isSessionConnected := true })
    | ServerMsg.errorMsg _ => ([], { s with isSessionConnected := false })
    | ServerMsg.sessionClose _ => ([], { s with isSessionConnected := false })
    | ServerMsg.textChunk t =>
      ([], if t = "" then s else { s with currentAiOutput := s.currentAiOutput ++ t })
    | ServerMsg.textComplete => ([], aiFlushBranch s)
    | ServerMsg.message data => handleGeminiMessage now dur data s
    | _ => ([], s)
  | ClientEvent.sendTextClick =>
    if jsTrim s.textInput = "" then ([], s)
    else if s.isSessionConnected = false then ([], s)
    else
      ([], { s with
        conversationHistory := s.conversationHistory ++
          [{ role := Role.user, text := jsTrim s.textInput }]
        textInput := "" })
  | ClientEvent.resetClick =>
    ([], { s with conversationHistory := [], currentUserInput := "", currentAiOutput := "" })
  | ClientEvent.modeSwitchConfirm =>
    ([], { s with currentUserInput := "", currentAiOutput := "" })
  | ClientEvent.audioSourceEnded id =>
    ([], { s with sources := s.sources.filter (fun x => x != id) })

/-- The entry predicate of claim C8, as a Boolean: the role is `user` or
`ai`, and the text is nonempty with no leading or trailing whitespace. -/
def goodEntryB (en : ConversationEntry) : Bool :=
  (en.role == Role.user || en.role == Role.ai) &&
  (en.text != "") &&
  (match en.text.data.head? with
   | some c => !c.isWhitespace
   | none => false) &&
  (match en.text.data.getLast? with
   | some c => !c.isWhitespace
   | none => false)

/-- The decimal value of a digit character produced by `Nat.digitChar`. -/
def digitVal (c : Char) : Nat := c.toNat - 48

/-- The number denoted by a most-significant-first list of decimal digit
characters. -/
def digitsVal (l : List Char) : Nat :=
  l.foldl (fun a c => a * 10 + digitVal c) 0

/-! ### Supporting lemmas: decimal rendering of the connection identifier -/

theorem toDigitsCore_acc (b : Nat) :
    ∀ (f n : Nat) (acc : List Char),
      Nat.toDigitsCore b f n acc = Nat.toDigitsCore b f n [] ++ acc := by
  intro f
  induction f with
  | zero => intro n acc; simp [Nat.toDigitsCore]
  | succ f ih =>
    intro n acc
    simp only [Nat.toDigitsCore]
    by_cases h : n / b = 0
    · simp [h]
    · simp only [if_neg h]
      rw [ih (n / b) [Nat.digitChar (n % b)], ih (n / b) (Nat.digitChar (n % b) :: acc)]
      simp

theorem digitVal_digitChar (d : Nat) (h : d < 10) :
    digitVal (Nat.digitChar d) = d := by
  interval_cases d <;> rfl

theorem digitsVal_toDigitsCore :
    ∀ (f n : Nat), n < f → digitsVal (Nat.toDigitsCore 10 f n []) = n := by
  intro f
  induction f with
  | zero => intro n h; exact absurd h (Nat.not_lt_zero n)
  | succ f ih =>
    intro n h
    simp only [Nat.toDigitsCore]
    by_cases h0 : n / 10 = 0
    · have hn10 : n < 10 := (Nat.div_eq_zero_iff (by decide)).1 h0
      simp only [if_pos h0, digitsVal, List.foldl]
      rw [digitVal_digitChar (n % 10) (Nat.mod_lt n (by decide))]
      simpa using Nat.mod_eq_of_lt hn10
    · have hnpos : 0 < n := by
        rcases Nat.eq_zero_or_pos n with h1 | h1
        · subst h1; simp at h0
        · exact h1
      have hlt : n / 10 < f := by
        have : n / 10 < n := Nat.div_lt_self hnpos (by decide)
        omega
      simp only [if_neg h0]
      rw [toDigitsCore_acc]
      have hval : digitsVal (Nat.toDigitsCore 10 f (n / 10) [] ++ [Nat.digitChar (n % 10)])
          = digitsVal (Nat.toDigitsCore 10 f (n / 10) []) * 10 + digitVal (Nat.digitChar (n % 10)) := by
        simp [digitsVal, List.foldl_append]
      rw [hval, ih (n / 10) hlt, digitVal_digitChar (n % 10) (Nat.mod_lt n (by decide))]
      have := Nat.div_add_mod n 10
      omega

theorem natRepr_injective : Function.Injective Nat.repr := by
  intro m n h
  have hdata : Nat.toDigits 10 m = Nat.toDigits 10 n := by
    have := congrArg String.data h
    simpa [Nat.repr, List.asString] using this
  have hm := digitsVal_toDigitsCore (m + 1) m (Nat.lt_succ_self m)
  have hn := digitsVal_toDigitsCore (n + 1) n (Nat.lt_succ_self n)
  simp only [Nat.toDigits] at hdata
  rw [hdata] at hm
  rw [hm] at hn
  exact hn

theorem sessionKey_injective : Function.Injective sessionKey := by
  intro a b h
  exact natRepr_injective h

/-! ### Supporting lemmas: the JS Map model -/

theorem mapKeys_cons {α : Type} (k0 : String) (v0 : α) (rest : List (String × α)) :
    mapKeys ((k0, v0) :: rest) = k0 :: mapKeys rest := rfl

theorem mapGet_set_self {α : Type} (m : List (String × α)) (k : String) (v : α) :
    mapGet (mapSet m k v) k = some v := by
  induction m with
  | nil => simp [mapSet, mapGet]
  | cons kv rest ih =>
    obtain ⟨k0, v0⟩ := kv
    by_cases h : k0 = k
    · simp [mapSet, mapGet, h]
    · simp [mapSet, mapGet, h, ih]

theorem mapGet_eq_none_of_not_mem {α : Type} (m : List (String × α)) (k : String)
    (h : k ∉ mapKeys m) : mapGet m k = none := by
  induction m with
  | nil => rfl
  | cons kv rest ih =>
    obtain ⟨k0, v0⟩ := kv
    rw [mapKeys_cons] at h
    simp only [List.mem_cons, not_or] at h
    have hne : ¬ (k0 = k) := fun hk => h.1 hk.symm
    simp only [mapGet, if_neg hne]
    exact ih h.2

theorem mem_mapKeys_set {α : Type} (m : List (String × α)) (k x : String) (v : α) :
    x ∈ mapKeys (mapSet m k v) ↔ x ∈ mapKeys m ∨ x = k := by
  induction m with
  | nil => simp [mapSet, mapKeys]
  | cons kv rest ih =>
    obtain ⟨k0, v0⟩ := kv
    by_cases h : k0 = k
    · subst h
      simp only [mapSet, if_true, eq_self_iff_true, mapKeys_cons, List.mem_cons]
      tauto
    · simp only [mapSet, if_neg h, mapKeys_cons, List.mem_cons, ih]
      tauto

theorem mapKeys_set_nodup {α : Type} (m : List (String × α)) (k : String) (v : α)
    (h : (mapKeys m).Nodup) : (mapKeys (mapSet m k v)).Nodup := by
  induction m with
  | nil => simp [mapSet, mapKeys]
  | cons kv rest ih =>
    obtain ⟨k0, v0⟩ := kv
    rw [mapKeys_cons] at h
    rcases List.nodup_cons.1 h with ⟨hk0, hrest⟩
    by_cases hkk : k0 = k
    · subst hkk
      simp only [mapSet, if_true, eq_self_iff_true, mapKeys_cons]
      exact List.nodup_cons.2 ⟨hk0, hrest⟩
    · simp only [mapSet, if_neg hkk, mapKeys_cons]
      refine List.nodup_cons.2 ⟨?_, ih hrest⟩
      intro hmem
      rcases (mem_mapKeys_set rest k k0 v).1 hmem with h1 | h1
      · exact hk0 h1
      · exact hkk h1

theorem mapDelete_sublist {α : Type} (m : List (String × α)) (k : String) :
    List.Sublist (mapDelete m k) m := by
  induction m with
  | nil => simp [mapDelete]
  | cons kv rest ih =>
    obtain ⟨k0, v0⟩ := kv
    by_cases h : k0 = k
    · simp only [mapDelete, if_pos h]
      exact List.sublist_cons_self _ _
    · simp only [mapDelete, if_neg h]
      exact List.Sublist.cons₂ _ ih

theorem mapKeys_delete_nodup {α : Type} (m : List (String × α)) (k : String)
    (h : (mapKeys m).Nodup) : (mapKeys (mapDelete m k)).Nodup :=
  ((mapDelete_sublist m k).map Prod.fst).nodup h

theorem mapGet_delete_self {α : Type} (m : List (String × α)) (k : String)
    (h : (mapKeys m).Nodup) : mapGet (mapDelete m k) k = none := by
  induction m with
  | nil => rfl
  | cons kv rest ih =>
    obtain ⟨k0, v0⟩ := kv
    rw [mapKeys_cons] at h
    rcases List.nodup_cons.1 h with ⟨hk0, hrest⟩
    by_cases hk : k0 = k
    · subst hk
      simp only [mapDelete, if_pos rfl]
      exact mapGet_eq_none_of_not_mem rest k0 hk0
    · simp only [mapDelete, if_neg hk, mapGet, if_neg hk]
      exact ih hrest

/-! ### Supporting lemmas: relay traces -/

theorem find?_append_of_none {α : Type} (p : α → Bool) (l₁ l₂ : List α)
    (h : ∀ a ∈ l₁, p a = false) :
    List.find? p (l₁ ++ l₂) = List.find? p l₂ := by
  induction l₁ with
  | nil => rfl
  | cons a t ih =>
    simp only [List.cons_append]
    rw [List.find?_cons_of_neg _ (by simp [h a (List.mem_cons_self a t)])]
    exact ih (fun x hx => h x (List.mem_cons_of_mem a hx))

theorem relayRun_conns_times_nodup :
    ∀ (es : List RelayEvent) (s : RelayState),
      ((s.conns.map OpenConn.time).Nodup) →
      (∀ c ∈ s.conns, c.time ∉ connectTimes es) →
      (connectTimes es).Nodup →
      (((relayRun s es).conns.map OpenConn.time)).Nodup := by
  intro es
  induction es with
  | nil => intro s hs _ _; exact hs
  | cons e es ih =>
    intro s hs hdisj hts
    cases e with
    | connect t q =>
      simp only [relayRun, List.foldl_cons]
      apply ih
      · simp only [relayStep, List.map_append, List.map_cons, List.map_nil]
        refine List.Nodup.append hs (List.nodup_singleton t) ?_
        intro x hx hxt
        simp only [List.mem_singleton] at hxt
        subst hxt
        simp only [List.mem_map] at hx
        obtain ⟨c, hc, hct⟩ := hx
        have := hdisj c hc
        simp only [connectTimes, List.mem_cons, not_or] at this
        exact this.1 hct
      · intro c hc
        simp only [relayStep, List.mem_append, List.mem_cons, List.not_mem_nil] at hc
        rcases hc with hc | hc
        · have := hdisj c hc
          simp only [connectTimes, List.mem_cons, not_or] at this
          exact this.2
        · rcases hc with hc | hc
          · subst hc
            simp only [connectTimes] at hts
            exact (List.nodup_cons.1 hts).1
          · exact absurd hc (by simp)
      · simp only [connectTimes] at hts
        exact (List.nodup_cons.1 hts).2
    | disconnect i =>
      simp only [relayRun, List.foldl_cons]
      apply ih
      · cases hf : List.find? (fun c => c.connId == i) s.conns with
        | none => simpa [relayStep, hf] using hs
        | some c =>
          simp only [relayStep, hf]
          exact ((List.eraseP_sublist _).map OpenConn.time).nodup hs
      · intro c hc
        cases hf : List.find? (fun c => c.connId == i) s.conns with
        | none =>
          simp only [relayStep, hf] at hc
          exact hdisj c hc
        | some c0 =>
          simp only [relayStep, hf] at hc
          exact hdisj c ((List.eraseP_sublist _).subset hc)
      · exact hts

theorem relayRun_sessions_nodup :
    ∀ (es : List RelayEvent) (s : RelayState),
      (mapKeys s.sessions).Nodup →
      (mapKeys (relayRun s es).sessions).Nodup := by
  intro es
  induction es with
  | nil => intro s h; exact h
  | cons e es ih =>
    intro s h
    simp only [relayRun, List.foldl_cons]
    apply ih
    cases e with
    | connect t q =>
      simp only [relayStep]
      exact mapKeys_set_nodup _ _ _ h
    | disconnect i =>
      cases hf : List.find? (fun c => c.connId == i) s.conns with
      | none => simpa [relayStep, hf] using h
      | some c =>
        simp only [relayStep, hf]
        cases c.kind with
        | playground => exact mapKeys_delete_nodup _ _ h
        | text => exact mapKeys_delete_nodup _ _ h
        | sttGemini => exact mapKeys_delete_nodup _ _ h
        | voice =>
          simp only [closeHandler]
          cases hg : mapGet s.sessions (sessionKey c.time) with
          | none => exact h
          | some r =>
            cases hr : r.hasSession with
            | false => simpa [hr] using h
            | true =>
              simp only [hr, if_true]
              exact mapKeys_delete_nodup _ _ h

/-! ### Supporting lemmas: trimming -/

theorem dropWhile_head?_not {α : Type} (p : α → Bool) :
    ∀ (l : List α) (a : α), (l.dropWhile p).head? = some a → p a = false := by
  intro l
  induction l with
  | nil => intro a h; simp [List.dropWhile] at h
  | cons b t ih =>
    intro a h
    cases hb : p b with
    | true =>
      rw [List.dropWhile_cons_of_pos (by simp [hb])] at h
      exact ih a h
    | false =>
      rw [List.dropWhile_cons_of_neg (by simp [hb])] at h
      simp only [List.head?_cons, Option.some.injEq] at h
      subst h
      exact hb

theorem isSuffix_getLast? {α : Type} {l₁ l₂ : List α}
    (h : List.IsSuffix l₂ l₁) (hne : l₂ ≠ []) : l₁.getLast? = l₂.getLast? := by
  obtain ⟨t, rfl⟩ := h
  cases hl : l₂.getLast? with
  | none => exact absurd (List.getLast?_eq_none_iff.1 hl) hne
  | some a => simp [List.getLast?_append, hl]

theorem trimChars_head?_not_ws (l : List Char) (a : Char)
    (h : (trimChars l).head? = some a) : a.isWhitespace = false := by
  unfold trimChars at h
  rw [List.head?_reverse] at h
  have hsuffix := List.dropWhile_suffix (l := (l.dropWhile Char.isWhitespace).reverse)
    (p := Char.isWhitespace)
  have hne : ((l.dropWhile Char.isWhitespace).reverse.dropWhile Char.isWhitespace) ≠ [] := by
    intro hnil
    rw [hnil] at h
    simp at h
  rw [← isSuffix_getLast? hsuffix hne, List.getLast?_reverse] at h
  exact dropWhile_head?_not _ _ _ h

theorem trimChars_getLast?_not_ws (l : List Char) (a : Char)
    (h : (trimChars l).getLast? = some a) : a.isWhitespace = false := by
  unfold trimChars at h
  rw [List.getLast?_reverse] at h
  exact dropWhile_head?_not _ _ _ h

theorem jsTrim_data (s : String) : (jsTrim s).data = trimChars s.data := rfl

theorem jsTrim_ne_empty_data (s : String) (h : jsTrim s ≠ "") :
    trimChars s.data ≠ [] := by
  intro hnil
  apply h
  show (trimChars s.data).asString = ""
  rw [hnil]
  rfl

theorem goodEntryB_jsTrim (r : Role) (x : String) (h : jsTrim x ≠ "") :
    goodEntryB { role := r, text := jsTrim x } = true := by
  have hdata : (jsTrim x).data = trimChars x.data := rfl
  have hnil : trimChars x.data ≠ [] := jsTrim_ne_empty_data x h
  unfold goodEntryB
  have hrole : (r == Role.user || r == Role.ai) = true := by cases r <;> rfl
  have hne : (jsTrim x != "") = true := by
    simp [bne_iff_ne, h]
  have hhead : (match (jsTrim x).data.head? with
      | some c => !c.isWhitespace
      | none => false) = true := by
    rw [hdata]
    cases hh : (trimChars x.data).head? with
    | none => exact absurd (List.head?_eq_none_iff.1 hh) hnil
    | some c => simp [trimChars_head?_not_ws x.data c hh]
  have hlast : (match (jsTrim x).data.getLast? with
      | some c => !c.isWhitespace
      | none => false) = true := by
    rw [hdata]
    cases hh : (trimChars x.data).getLast? with
    | none => exact absurd (List.getLast?_eq_none_iff.1 hh) hnil
    | some c => simp [trimChars_getLast?_not_ws x.data c hh]
  simp only [hrole, hne, hhead, hlast]
  rfl

/-! ### Supporting lemmas: client history structure -/

theorem extAppend_trans {a b c : List ConversationEntry}
    (h1 : ∃ t, b = a ++ t) (h2 : ∃ t, c = b ++ t) : ∃ t, c = a ++ t := by
  obtain ⟨t1, rfl⟩ := h1
  obtain ⟨t2, rfl⟩ := h2
  exact ⟨t1 ++ t2, List.append_assoc a t1 t2⟩

theorem geminiAudioStep_history (now dur : Nat) (m : GeminiMsg) (s : ClientState) :
    (geminiAudioStep now dur m s).conversationHistory = s.conversationHistory := by
  unfold geminiAudioStep audioBranch
  cases m.audioData <;> rfl

theorem geminiModelTextStep_history (m : GeminiMsg) (s : ClientState) :
    (geminiModelTextStep m s).conversationHistory = s.conversationHistory := by
  unfold geminiModelTextStep
  cases m.modelTurnText <;> rfl

theorem geminiInputTransStep_history (m : GeminiMsg) (s : ClientState) :
    (geminiInputTransStep m s).conversationHistory = s.conversationHistory := by
  unfold geminiInputTransStep
  cases m.inputTranscriptionText <;> rfl

theorem geminiOutputTransStep_history (m : GeminiMsg) (s : ClientState) :
    (geminiOutputTransStep m s).conversationHistory = s.conversationHistory := by
  unfold geminiOutputTransStep
  cases m.outputTranscriptionText <;> rfl

theorem inputFinishedBranch_history (s : ClientState) :
    (inputFinishedBranch s).conversationHistory = s.conversationHistory ∨
    (inputFinishedBranch s).conversationHistory
      = s.conversationHistory ++ [{ role := Role.user, text := jsTrim s.currentUserInput }] := by
  unfold inputFinishedBranch
  by_cases h : jsTrim s.currentUserInput = ""
  · left; simp [h]
  · right; simp [h]

theorem aiFlushBranch_history (s : ClientState) :
    (aiFlushBranch s).conversationHistory = s.conversationHistory ∨
    (aiFlushBranch s).conversationHistory
      = s.conversationHistory ++ [{ role := Role.ai, text := jsTrim s.currentAiOutput }] := by
  unfold aiFlushBranch
  by_cases h : jsTrim s.currentAiOutput = ""
  · left; simp [h]
  · right; simp [h]

theorem geminiInputFinishedStep_ext (m : GeminiMsg) (s : ClientState) :
    ∃ t, (geminiInputFinishedStep m s).conversationHistory = s.conversationHistory ++ t := by
  unfold geminiInputFinishedStep
  cases m.inputTranscriptionFinished with
  | false => exact ⟨[], by simp⟩
  | true =>
    rcases inputFinishedBranch_history s with h | h
    · exact ⟨[], by simp [h]⟩
    · exact ⟨_, h⟩

theorem geminiTurnCompleteStep_ext (m : GeminiMsg) (s : ClientState) :
    ∃ t, (geminiTurnCompleteStep m s).conversationHistory = s.conversationHistory ++ t := by
  unfold geminiTurnCompleteStep
  cases m.turnComplete with
  | false => exact ⟨[], by simp⟩
  | true =>
    rcases aiFlushBranch_history s with h | h
    · exact ⟨[], by simp [h]⟩
    · exact ⟨_, h⟩

theorem geminiInterruptedStep_history (m : GeminiMsg) (s : ClientState) :
    (geminiInterruptedStep m s).2.conversationHistory = s.conversationHistory := by
  unfold geminiInterruptedStep interruptedBranch
  cases m.interrupted <;> rfl

theorem handleGeminiMessage_history_ext (now dur : Nat) (m : GeminiMsg) (s : ClientState) :
    ∃ t, (handleGeminiMessage now dur m s).2.conversationHistory
      = s.conversationHistory ++ t := by
  unfold handleGeminiMessage
  refine extAppend_trans (b := (geminiTurnCompleteStep m (geminiOutputTransStep m
    (geminiInputFinishedStep m (geminiInputTransStep m (geminiModelTextStep m
      (geminiAudioStep now dur m s)))))).conversationHistory) ?_ ?_
  · refine extAppend_trans (b := (geminiInputFinishedStep m (geminiInputTransStep m
      (geminiModelTextStep m (geminiAudioStep now dur m s)))).conversationHistory) ?_ ?_
    · refine extAppend_trans
        (b := (geminiAudioStep now dur m s).conversationHistory) ?_ ?_
      · exact ⟨[], by simp [geminiAudioStep_history]⟩
      · refine extAppend_trans
          (b := (geminiInputTransStep m (geminiModelTextStep m
            (geminiAudioStep now dur m s))).conversationHistory) ?_ ?_
        · exact ⟨[], by simp [geminiModelTextStep_history, geminiInputTransStep_history]⟩
        · exact geminiInputFinishedStep_ext m _
    · refine extAppend_trans
        (b := (geminiOutputTransStep m (geminiInputFinishedStep m (geminiInputTransStep m
          (geminiModelTextStep m (geminiAudioStep now dur m s))))).conversationHistory) ?_ ?_
      · exact ⟨[], by simp [geminiOutputTransStep_history]⟩
      · exact geminiTurnCompleteStep_ext m _
  · exact ⟨[], by simp [geminiInterruptedStep_history]⟩

/-! ### Supporting lemmas: well-formedness of appended entries -/

theorem allGood_inputFinishedBranch (s : ClientState)
    (h : s.conversationHistory.all goodEntryB = true) :
    (inputFinishedBranch s).conversationHistory.all goodEntryB = true := by
  unfold inputFinishedBranch
  by_cases hc : jsTrim s.currentUserInput = ""
  · simpa [hc] using h
  · simp only [if_neg hc]
    simp [List.all_append, h, goodEntryB_jsTrim Role.user s.currentUserInput hc]

theorem allGood_aiFlushBranch (s : ClientState)
    (h : s.conversationHistory.all goodEntryB = true) :
    (aiFlushBranch s).conversationHistory.all goodEntryB = true := by
  unfold aiFlushBranch
  by_cases hc : jsTrim s.currentAiOutput = ""
  · simpa [hc] using h
  · simp only [if_neg hc]
    simp [List.all_append, h, goodEntryB_jsTrim Role.ai s.currentAiOutput hc]

theorem handleGeminiMessage_allGood (now dur : Nat) (m : GeminiMsg) (s : ClientState)
    (h : s.conversationHistory.all goodEntryB = true) :
    ((handleGeminiMessage now dur m s).2.conversationHistory).all goodEntryB = true := by
  unfold handleGeminiMessage
  have h1 : (geminiAudioStep now dur m s).conversationHistory.all goodEntryB = true := by
    rw [geminiAudioStep_history]; exact h
  have h2 : (geminiModelTextStep m (geminiAudioStep now dur m s)).conversationHistory.all
      goodEntryB = true := by
    rw [geminiModelTextStep_history]; exact h1
  have h3 : (geminiInputTransStep m (geminiModelTextStep m
      (geminiAudioStep now dur m s))).conversationHistory.all goodEntryB = true := by
    rw [geminiInputTransStep_history]; exact h2
  have h4 : (geminiInputFinishedStep m (geminiInputTransStep m (geminiModelTextStep m
      (geminiAudioStep now dur m s)))).conversationHistory.all goodEntryB = true := by
    unfold geminiInputFinishedStep
    cases m.inputTranscriptionFinished with
    | false => exact h3
    | true => exact allGood_inputFinishedBranch _ h3
  have h5 : (geminiOutputTransStep m (geminiInputFinishedStep m (geminiInputTransStep m
      (geminiModelTextStep m (geminiAudioStep now dur m s))))).conversationHistory.all
      goodEntryB = true := by
    rw [geminiOutputTransStep_history]; exact h4
  have h6 : (geminiTurnCompleteStep m (geminiOutputTransStep m (geminiInputFinishedStep m
      (geminiInputTransStep m (geminiModelTextStep m
        (geminiAudioStep now dur m s)))))).conversationHistory.all goodEntryB = true := by
    unfold geminiTurnCompleteStep
    cases m.turnComplete with
    | false => exact h5
    | true => exact allGood_aiFlushBranch _ h5
  rw [geminiInterruptedStep_history]
  exact h6

/-! ### Supporting lemmas: the close handler undoes the setup insertion -/

theorem closeHandler_mapSet_self (kind : SessionType) (k : String)
    (m : List (String × SessionRecord)) (h : (mapKeys m).Nodup) :
    mapGet (closeHandler kind k (mapSet m k (mkRecord kind))) k = none := by
  have hnodup := mapKeys_set_nodup m k (mkRecord kind) h
  cases kind with
  | playground => exact mapGet_delete_self _ _ hnodup
  | text => exact mapGet_delete_self _ _ hnodup
  | sttGemini => exact mapGet_delete_self _ _ hnodup
  | voice =>
    simp only [closeHandler, mapGet_set_self, mkRecord, if_true]
    exact mapGet_delete_self _ _ hnodup

/-! ### Claim theorems -/

theorem relayStep_disconnect_found (s : RelayState) (i : Nat) (c : OpenConn)
    (hf : s.conns.find? (fun c => c.connId == i) = some c) :
    relayStep s (RelayEvent.disconnect i)
      = { s with conns := s.conns.eraseP (fun c => c.connId == i),
                 sessions := closeHandler c.kind (sessionKey c.time) s.sessions } := by
  simp only [relayStep, hf]

/-- C1 (amended): provided the connect events of a trace observe pairwise
distinct `Date.now()` timestamps, every reachable relay state keys each open
client connection by a connection identifier distinct from that of every
other simultaneously open connection, and the in-memory sessions map holds
at most one record per identifier (so at most one upstream session per open
client socket), for all interleavings of connects and disconnects. -/
theorem relay_session_keys_distinct (es : List RelayEvent)
    (h : (connectTimes es).Nodup) :
    (((relayRun relayInit es).conns.map (fun c => sessionKey c.time)).Nodup) ∧
    (mapKeys (relayRun relayInit es).sessions).Nodup := by
  constructor
  · have htimes : ((relayRun relayInit es).conns.map OpenConn.time).Nodup :=
      relayRun_conns_times_nodup es relayInit (by simp [relayInit])
        (by intro c hc; simp [relayInit] at hc) h
    have hmm : (relayRun relayInit es).conns.map (fun c => sessionKey c.time)
        = ((relayRun relayInit es).conns.map OpenConn.time).map sessionKey := by
      rw [List.map_map]
      rfl
    rw [hmm]
    exact htimes.map sessionKey_injective
  · exact relayRun_sessions_nodup es relayInit (by simp [relayInit, mapKeys])

/-- Witness for C1: a concrete trace with distinct timestamps. -/
theorem relay_session_keys_distinct_witness :
    (((relayRun relayInit [RelayEvent.connect 3 none, RelayEvent.connect 7 (some "text"),
        RelayEvent.disconnect 0]).conns.map (fun c => sessionKey c.time)).Nodup) ∧
    (mapKeys (relayRun relayInit [RelayEvent.connect 3 none,
        RelayEvent.connect 7 (some "text"), RelayEvent.disconnect 0]).sessions).Nodup :=
  relay_session_keys_distinct
    [RelayEvent.connect 3 none, RelayEvent.connect 7 (some "text"), RelayEvent.disconnect 0]
    (by decide)

/-- Counterexample to C1 as stated: two clients connecting in the same
millisecond receive the same `Date.now().toString()` identifier, so two
simultaneously open connections share one key (and one sessions-map record). -/
theorem relay_session_id_collision :
    (relayRun relayInit [RelayEvent.connect 5 none,
        RelayEvent.connect 5 none]).conns.length = 2 ∧
    (relayRun relayInit [RelayEvent.connect 5 none,
        RelayEvent.connect 5 none]).sessions.length = 1 ∧
    ¬ (((relayRun relayInit [RelayEvent.connect 5 none,
        RelayEvent.connect 5 none]).conns.map (fun c => sessionKey c.time)).Nodup) := by
  refine ⟨rfl, rfl, ?_⟩
  decide

/-- C2: for every client connection, in every mode, the connect step performs
exactly one `sessions.set` (the new sessions map is a single-key update of the
old one), and the close step of that same connection removes the record for
its connection identifier from the map. -/
theorem session_record_lifecycle (s : RelayState) (t : Nat) (q : Option String)
    (hk : (mapKeys s.sessions).Nodup)
    (hc : ∀ c ∈ s.conns, c.connId ≠ s.nextConn) :
    ((relayStep s (RelayEvent.connect t q)).sessions
      = mapSet s.sessions (sessionKey t)
          (mkRecord (dispatchMode (jsStringOr q "voice")))) ∧
    mapGet ((relayStep (relayStep s (RelayEvent.connect t q))
        (RelayEvent.disconnect s.nextConn)).sessions) (sessionKey t) = none := by
  refine ⟨rfl, ?_⟩
  have hfind : ((relayStep s (RelayEvent.connect t q)).conns).find?
      (fun c => c.connId == s.nextConn)
      = some (OpenConn.mk s.nextConn t (dispatchMode (jsStringOr q "voice"))) := by
    show (s.conns ++ [OpenConn.mk s.nextConn t (dispatchMode (jsStringOr q "voice"))]).find?
      (fun c => c.connId == s.nextConn) = _
    rw [find?_append_of_none _ _ _ (fun a ha => by simp [hc a ha])]
    rw [List.find?_cons_of_pos _ (by simp)]
  rw [relayStep_disconnect_found _ _ _ hfind]
  exact closeHandler_mapSet_self (dispatchMode (jsStringOr q "voice")) (sessionKey t)
    s.sessions hk

/-- Witness for C2: a fresh connection on the initial state. -/
theorem session_record_lifecycle_witness :
    ((relayStep relayInit (RelayEvent.connect 7 none)).sessions
      = mapSet relayInit.sessions (sessionKey 7)
          (mkRecord (dispatchMode (jsStringOr none "voice")))) ∧
    mapGet ((relayStep (relayStep relayInit (RelayEvent.connect 7 none))
        (RelayEvent.disconnect relayInit.nextConn)).sessions) (sessionKey 7) = none :=
  session_record_lifecycle relayInit 7 none (by simp [relayInit, mapKeys])
    (by intro c hc; simp [relayInit] at hc)

/-- C3: if session setup throws, in any mode, the catch handler sends the
client exactly one message, of type `error` carrying the error's message, and
then closes the client socket; the successful setup path never closes it. -/
theorem setup_failure_terminates (kind : SessionType) (e : String) :
    connectionSetupActions kind (Except.error e)
      = [ClientAction.send (ServerMsg.errorMsg e), ClientAction.closeSocket] ∧
    (ServerMsg.errorMsg e).typeField = "error" ∧
    (ServerMsg.errorMsg e).errorPayload = some e ∧
    (∀ k : SessionType, ClientAction.closeSocket ∉ connectionSetupActions k (Except.ok ())) := by
  refine ⟨rfl, rfl, rfl, ?_⟩
  intro k
  cases k <;> decide

/-- Counterexample to C4 as stated: a playground streaming error is forwarded
with type `playground_error`, not as a message of type `error`. -/
theorem playground_error_type_differs :
    playgroundStreamErrorSends "boom" = [ServerMsg.playgroundError "boom"] ∧
    (ServerMsg.playgroundError "boom").typeField ≠ "error" := by
  refine ⟨rfl, ?_⟩
  decide

/-- C4 (amended): every vendor error in an established session is caught and
forwarded to the browser carrying the error's message: as a message of type
`error` (field `message`) in text, stt and voice mode, but as a message of
type `playground_error` (field `error`) in playground mode. -/
theorem vendor_errors_forwarded (e : String) :
    textStreamErrorSends e = [ServerMsg.errorMsg e] ∧
    sttOnErrorSend e = ServerMsg.errorMsg e ∧
    voiceOnErrorSend e = ServerMsg.errorMsg e ∧
    playgroundStreamErrorSends e = [ServerMsg.playgroundError e] ∧
    (ServerMsg.errorMsg e).typeField = "error" ∧
    (ServerMsg.playgroundError e).typeField = "playground_error" ∧
    (ServerMsg.errorMsg e).errorPayload = some e ∧
    (ServerMsg.playgroundError e).errorPayload = some e :=
  ⟨rfl, rfl, rfl, rfl, rfl, rfl, rfl, rfl⟩

/-- C5: the mode dispatch is a total function of the `mode` query parameter:
`playground`, `text` and `stt` select their dedicated session kinds, and every
other value, including an absent parameter, yields a voice Live session. -/
theorem mode_dispatch_total :
    dispatchMode (jsStringOr none "voice") = SessionType.voice ∧
    dispatchMode (jsStringOr (some "playground") "voice") = SessionType.playground ∧
    dispatchMode (jsStringOr (some "text") "voice") = SessionType.text ∧
    dispatchMode (jsStringOr (some "stt") "voice") = SessionType.sttGemini ∧
    (∀ v : String, v ≠ "playground" → v ≠ "text" → v ≠ "stt" →
      dispatchMode (jsStringOr (some v) "voice") = SessionType.voice) := by
  refine ⟨by decide, by decide, by decide, by decide, ?_⟩
  intro v h1 h2 h3
  by_cases hv : v = ""
  · subst hv; decide
  · simp only [jsStringOr, if_neg hv, dispatchMode, if_neg h1, if_neg h2, if_neg h3]

/-- Witness for C5: an unknown mode value falls through to voice. -/
theorem mode_dispatch_total_witness :
    dispatchMode (jsStringOr (some "garbage") "voice") = SessionType.voice :=
  mode_dispatch_total.2.2.2.2 "garbage" (by decide) (by decide) (by decide)

/-- C6: the browser transcript is only ever changed by appending role-tagged
entries at its end (transcription/completion events and text sends) or by
clearing it to the empty list on reset; no handled event reorders, edits, or
individually removes entries already in the list. -/
theorem history_append_only (s : ClientState) (e : ClientEvent) :
    (clientStep s e).2.conversationHistory = s.conversationHistory ∨
    (∃ tail, tail ≠ [] ∧
      (clientStep s e).2.conversationHistory = s.conversationHistory ++ tail) ∨
    (e = ClientEvent.resetClick ∧ (clientStep s e).2.conversationHistory = []) := by
  cases e with
  | wsMessage m now dur =>
    cases m with
    | sessionOpen mode => left; rfl
    | sessionClose r => left; rfl
    | errorMsg msg => left; rfl
    | playgroundError msg => left; rfl
    | playgroundChunk tx => left; rfl
    | playgroundComplete r => left; rfl
    | transcription tx f => left; rfl
    | textChunk tx =>
      left
      by_cases htx : tx = "" <;> simp [clientStep, htx]
    | textComplete =>
      rcases aiFlushBranch_history s with hh | hh
      · left; exact hh
      · right; left
        exact ⟨[{ role := Role.ai, text := jsTrim s.currentAiOutput }], by simp, hh⟩
    | message data =>
      rcases handleGeminiMessage_history_ext now dur data s with ⟨tail, ht⟩
      cases tail with
      | nil => left; simpa using ht
      | cons a t2 => right; left; exact ⟨a :: t2, by simp, ht⟩
  | sendTextClick =>
    by_cases h1 : jsTrim s.textInput = ""
    · left; simp [clientStep, h1]
    · by_cases h2 : s.isSessionConnected = false
      · left; simp [clientStep, h1, h2]
      · right; left
        refine ⟨[{ role := Role.user, text := jsTrim s.textInput }], by simp, ?_⟩
        simp [clientStep, h1, h2]
  | resetClick => right; right; exact ⟨rfl, rfl⟩
  | modeSwitchConfirm => left; rfl
  | audioSourceEnded id => left; rfl

/-- C7: in voice mode the relay pipes both directions: every upstream message
is forwarded to the client wrapped unchanged as `{type: 'message', data}`, in
order, and every client `audio` message is forwarded upstream as realtime PCM
input with mime type `audio/pcm;rate=16000` and the base64 data unchanged. -/
theorem voice_bidirectional_piping (ms : List GeminiMsg) (c : ClientMsg)
    (h : c.msgType = "audio") :
    voiceForward ms = ms.map ServerMsg.message ∧
    (∀ m : GeminiMsg, voiceOnMessageSend m = ServerMsg.message m) ∧
    voiceClientOnMessage c
      = some (UpstreamCall.sendRealtimeInput c.data "audio/pcm;rate=16000") := by
  refine ⟨rfl, fun m => rfl, ?_⟩
  simp [voiceClientOnMessage, h]

/-- Witness for C7: a concrete audio message from the client. -/
theorem voice_bidirectional_piping_witness :
    voiceClientOnMessage { msgType := "audio", data := "QUJD", text := "" }
      = some (UpstreamCall.sendRealtimeInput "QUJD" "audio/pcm;rate=16000") :=
  (voice_bidirectional_piping [] { msgType := "audio", data := "QUJD", text := "" } rfl).2.2

/-- C8: every entry ever appended to the transcript has role `user` or `ai`
and nonempty text with no leading or trailing whitespace: each append site
guards on the trimmed text being nonempty and stores the trimmed string. -/
theorem history_entries_well_formed (s : ClientState) (e : ClientEvent)
    (h : s.conversationHistory.all goodEntryB = true) :
    ((clientStep s e).2.conversationHistory).all goodEntryB = true := by
  cases e with
  | wsMessage m now dur =>
    cases m with
    | sessionOpen mode => exact h
    | sessionClose r => exact h
    | errorMsg msg => exact h
    | playgroundError msg => exact h
    | playgroundChunk tx => exact h
    | playgroundComplete r => exact h
    | transcription tx f => exact h
    | textChunk tx =>
      by_cases htx : tx = "" <;> simpa [clientStep, htx] using h
    | textComplete => exact allGood_aiFlushBranch s h
    | message data => exact handleGeminiMessage_allGood now dur data s h
  | sendTextClick =>
    by_cases h1 : jsTrim s.textInput = ""
    · simpa [clientStep, h1] using h
    · by_cases h2 : s.isSessionConnected = false
      · simpa [clientStep, h1, h2] using h
      · simp only [clientStep, if_neg h1, if_neg h2]
        simp [List.all_append, h, goodEntryB_jsTrim Role.user s.textInput h1]
  | resetClick => rfl
  | modeSwitchConfirm => exact h
  | audioSourceEnded id => exact h

/-- Witness for C8: sending a padded text input appends only a trimmed,
nonempty entry. -/
theorem history_entries_well_formed_witness :
    ((clientStep { initClientState with textInput := " hi ", isSessionConnected := true }
      ClientEvent.sendTextClick).2.conversationHistory).all goodEntryB = true :=
  history_entries_well_formed _ ClientEvent.sendTextClick rfl

/-- C9: on a server message with `serverContent.interrupted` set, the handler
ends with every scheduled source stopped and the source set emptied,
`nextStartTime` reset to 0 and the in-progress AI output cleared; the
interrupted block itself stops exactly the scheduled sources and leaves the
transcript and the in-progress user input unchanged. -/
theorem interrupted_clears_playback (s : ClientState) (now dur : Nat) (m : GeminiMsg)
    (h : m.interrupted = true) :
    (handleGeminiMessage now dur m s).2.sources = [] ∧
    (handleGeminiMessage now dur m s).2.nextStartTime = 0 ∧
    (handleGeminiMessage now dur m s).2.currentAiOutput = "" ∧
    (interruptedBranch s).1 = s.sources.map AudioEffect.stopSource ∧
    (interruptedBranch s).2.sources = [] ∧
    (interruptedBranch s).2.nextStartTime = 0 ∧
    (interruptedBranch s).2.currentAiOutput = "" ∧
    (interruptedBranch s).2.conversationHistory = s.conversationHistory ∧
    (interruptedBranch s).2.currentUserInput = s.currentUserInput := by
  unfold handleGeminiMessage geminiInterruptedStep
  rw [h]
  simp [interruptedBranch]

/-- Witness for C9: a message carrying only the interrupted flag. -/
theorem interrupted_clears_playback_witness :
    (handleGeminiMessage 0 0 (GeminiMsg.mk none none none false none false true)
      initClientState).2.sources = [] :=
  (interrupted_clears_playback initClientState 0 0 _ rfl).1

/-- C10: after a playground stream runs to completion, exactly one
`playground_complete` message is sent; its response equals the parsed JSON of
the accumulated text when structured output is enabled and parsing succeeds,
and the raw accumulated text otherwise (including on parse failure, which
never raises or suppresses the completion message). -/
theorem playground_completion_always_sent (parseJson : String → Option String)
    (u : Bool) (ft : String) :
    playgroundStreamFinishSends parseJson u ft
      = [ServerMsg.playgroundComplete (playgroundFinalResponse parseJson u ft)] ∧
    (∀ v, u = true → parseJson ft = some v →
      playgroundFinalResponse parseJson u ft = PgResponse.parsedJson v) ∧
    (parseJson ft = none → playgroundFinalResponse parseJson u ft = PgResponse.rawText ft) ∧
    (u = false → playgroundFinalResponse parseJson u ft = PgResponse.rawText ft) := by
  refine ⟨rfl, ?_, ?_, ?_⟩
  · intro v hu hp
    subst hu
    simp [playgroundFinalResponse, hp]
  · intro hp
    cases u with
    | false => simp [playgroundFinalResponse]
    | true => simp [playgroundFinalResponse, hp]
  · intro hu
    subst hu
    simp [playgroundFinalResponse]

/-- Witness for C10: concrete parse outcomes. -/
theorem playground_completion_always_sent_witness :
    playgroundFinalResponse (fun _ => some "ok") true "x" = PgResponse.parsedJson "ok" ∧
    playgroundFinalResponse (fun _ => none) true "x" = PgResponse.rawText "x" ∧
    playgroundFinalResponse (fun _ => some "ok") false "x" = PgResponse.rawText "x" :=
  ⟨(playground_completion_always_sent (fun _ => some "ok") true "x").2.1 "ok" rfl rfl,
   (playground_completion_always_sent (fun _ => none) true "x").2.2.1 rfl,
   (playground_completion_always_sent (fun _ => some "ok") false "x").2.2.2 rfl⟩
